import Mathlib

/-!
Formal model of the blending-optimization core of the repository
(`src/mixengine/utils/mix_optimizer.py`).

The Python module builds linear programs with `scipy.optimize.linprog` and
post-processes the solver's answer.  The embedding below translates the
constraint construction and the post-processing literally, over exact
rationals; the external LP solver is modelled as a function producing an
`LPOutcome`, and solver success/optimality enter theorems as hypotheses
(`Feasible`, `Optimal`).

Conventions used throughout:
- Python `None` for an unmeasured nutrient value is `Option.none`;
- a Python exception escaping a function is modelled by the function
  returning `Option.none` at its outer layer;
- IEEE `nan` produced by numpy's division by zero (the numerators of
  `get_closest_feasible_targets` are numpy floats) is modelled by
  `Option.none` in the affected numeric slot (`pdiv`); by contrast the
  `res.fun` objective values divided in `get_achievable_range` are plain
  Python floats, so dividing them by zero raises `ZeroDivisionError` — an
  exception, `none` at that function's outer layer;
- Python dicts that the code only iterates over or looks up in are
  association lists in iteration (insertion) order, with distinct keys.
-/

namespace MixEngine

/-- Rounding to two decimal places, Python's `round(v, 2)`.  (Python rounds
half to even while `round` here rounds half up; the difference, only at
exact half-cent ties, is not relied on by any theorem below.) -/
def round2 (q : ℚ) : ℚ := ((round (q * 100) : ℤ) : ℚ) / 100

/-- Python's `s.upper()` (ASCII, as all names and keys here are). -/
def pyUpper (s : String) : String := ⟨s.data.map Char.toUpper⟩

/-- Python's `s.lower()` (ASCII). -/
def pyLower (s : String) : String := ⟨s.data.map Char.toLower⟩

/-- Auxiliary for `pyReplace`: the rest of the second list after removing
the first list as a prefix, when it is one. -/
def stripHere : List Char → List Char → Option (List Char)
  | [], s => some s
  | _ :: _, [] => none
  | p :: ps, c :: cs => if p = c then stripHere ps cs else none

/-- Auxiliary for `pyReplace`: replace left-to-right, fuelled by the input
length so the recursion is structural. -/
def replaceCharsAux (pat repl : List Char) : ℕ → List Char → List Char
  | _, [] => []
  | 0, s => s
  | fuel + 1, c :: rest =>
    match stripHere pat (c :: rest) with
    | some rem => repl ++ replaceCharsAux pat repl fuel rem
    | none => c :: replaceCharsAux pat repl fuel rest

/-- Python's `s.replace(pat, repl)` for a non-empty pattern (the source
only ever replaces the literal `"target_"`). -/
def pyReplace (s pat repl : String) : String :=
  if pat.data.isEmpty then s
  else ⟨replaceCharsAux pat.data repl.data s.data.length s.data⟩

/-- Substring test on character lists: `charsContain pat hay` holds when
`pat` occurs contiguously in `hay` (Python's `pat in hay`). -/
def charsContain (pat : List Char) : List Char → Bool
  | [] => pat.isEmpty
  | c :: rest => pat.isPrefixOf (c :: rest) || charsContain pat rest

/-- Python's `pat in hay` on strings. -/
def strContains (hay pat : String) : Bool := charsContain pat.toList hay.toList

/-- One stock sample (`mixengine.models.Sample` as consumed by the
optimizer): a name, seven optional nutrient values, and the remaining
stock quantity. -/
structure Sample where
  name : String
  moisture : Option ℚ := none
  cp : Option ℚ := none
  fat : Option ℚ := none
  tvbn : Option ℚ := none
  ash : Option ℚ := none
  ffa : Option ℚ := none
  fiber : Option ℚ := none
  remaining_quantity : ℚ := 0
  deriving DecidableEq

/-- The fixed per-nutrient tolerance table `FOOD_TOLERANCES` of the source,
in source order. -/
def FOOD_TOLERANCES : List (String × ℚ) :=
  [("cp", 1/2), ("fat", 1), ("ash", 3/2), ("ffa", 1/2),
   ("moisture", 1/2), ("fiber", 1), ("tvbn", 1)]

/-- Python's `FOOD_TOLERANCES.get(nutrient, 0.5)`. -/
def tolGet (nutrient : String) : ℚ :=
  ((FOOD_TOLERANCES.lookup nutrient).getD (1/2))

/-- Per-sample usable stock: `max(0, s.remaining_quantity)`, the
`bag_limits` list of the source. -/
def bagLimits (samples : List Sample) : List ℚ :=
  samples.map (fun s => max 0 s.remaining_quantity)

/-- Category-matching rule applied to one sample (the body of the three
list comprehensions shared by `optimize_mix`, `basic_mix` and
`get_closest_feasible_targets`). -/
def matchKey (key : String) (s : Sample) : Bool :=
  if pyUpper key = "F/M" then strContains (pyUpper s.name) "FISH MEAL"
  else if pyUpper key = "HYPRO" then strContains (pyUpper s.name) "HYPRO"
  else strContains (pyUpper s.name) (pyUpper key)

/-- Indices of the samples matching a fixed-allocation key
(`[i for i, s in enumerate(samples) if ...]`). -/
def matchingIndices (samples : List Sample) (key : String) : List ℕ :=
  ((samples.enum).filter (fun p => matchKey key p.2)).map Prod.fst

/-- Fixed-allocation groups emitted by `optimize_mix` and `basic_mix`: a
key matching no sample is skipped; otherwise the right-hand side is the
requested quantity capped at the matching samples' combined usable stock
(`fixed_bags = min(val, sum_remaining)`). -/
def fixedGroups (samples : List Sample) (fixed_samples : List (String × ℚ)) :
    List (List ℕ × ℚ) :=
  fixed_samples.filterMap (fun kv =>
    let M := matchingIndices samples kv.1
    if M.isEmpty then none
    else some (M, min kv.2 ((M.map (fun i => (bagLimits samples).getD i 0)).sum)))

/-- Fixed-allocation groups emitted by `get_closest_feasible_targets`: the
same matching and skipping, but the right-hand side is the raw requested
value (`b_eq = np.append(b_eq, val)`, no capping in the source). -/
def fixedGroupsClosest (samples : List Sample)
    (fixed_samples : List (String × ℚ)) : List (List ℕ × ℚ) :=
  fixed_samples.filterMap (fun kv =>
    let M := matchingIndices samples kv.1
    if M.isEmpty then none else some (M, kv.2))

/-! The linear programs handed to `scipy.optimize.linprog`.  Every call in
the source passes bounds whose lower component is `0`, so a bound is kept
as a pair (lower bound, optional upper bound) exactly as built there. -/

/-- A linear program as the source assembles it: an objective vector, a
bound pair per variable, equality rows and upper-inequality rows.  Rows
and vectors are coefficient functions evaluated on `[0, numVars)`. -/
structure LinProg where
  numVars : ℕ
  objective : ℕ → ℚ
  bounds : ℕ → ℚ × Option ℚ
  eqRows : List ((ℕ → ℚ) × ℚ)
  ubRows : List ((ℕ → ℚ) × ℚ)

/-- Dot product of a coefficient row with a solution vector over the first
`N` variables. -/
def dotN (N : ℕ) (a x : ℕ → ℚ) : ℚ := ∑ i in Finset.range N, a i * x i

/-- Bound satisfaction for one variable. -/
def withinBounds (b : ℚ × Option ℚ) (v : ℚ) : Prop :=
  b.1 ≤ v ∧ (match b.2 with | none => True | some u => v ≤ u)

instance (b : ℚ × Option ℚ) (v : ℚ) : Decidable (withinBounds b v) :=
  match b with
  | (lo, none) => inferInstanceAs (Decidable (lo ≤ v ∧ True))
  | (lo, some u) => inferInstanceAs (Decidable (lo ≤ v ∧ v ≤ u))

/-- A vector satisfies the program's bounds, equalities and inequalities
(what `linprog` guarantees of a returned solution, up to its numerical
tolerance, which the exact model takes as zero). -/
def Feasible (lp : LinProg) (x : ℕ → ℚ) : Prop :=
  (∀ i < lp.numVars, withinBounds (lp.bounds i) (x i)) ∧
  (∀ rc ∈ lp.eqRows, dotN lp.numVars rc.1 x = rc.2) ∧
  (∀ rc ∈ lp.ubRows, dotN lp.numVars rc.1 x ≤ rc.2)

instance (lp : LinProg) (x : ℕ → ℚ) : Decidable (Feasible lp x) :=
  inferInstanceAs (Decidable
    ((∀ i < lp.numVars, withinBounds (lp.bounds i) (x i)) ∧
     (∀ rc ∈ lp.eqRows, dotN lp.numVars rc.1 x = rc.2) ∧
     (∀ rc ∈ lp.ubRows, dotN lp.numVars rc.1 x ≤ rc.2)))

/-- Objective value of a vector. -/
def objVal (lp : LinProg) (x : ℕ → ℚ) : ℚ := dotN lp.numVars lp.objective x

/-- An optimal solution: feasible and of minimal objective value (what a
successful `linprog` call returns). -/
def Optimal (lp : LinProg) (x : ℕ → ℚ) : Prop :=
  Feasible lp x ∧ ∀ y, Feasible lp y → objVal lp x ≤ objVal lp y

/-- Outcome of one `linprog` call: an optimal vector, or failure with the
solver's diagnostic message. -/
inductive LPOutcome where
  | ok (x : ℕ → ℚ)
  | fail (message : String)

/-- The LP solver as consumed by the source: any function from programs to
outcomes (theorems add `Feasible`/`Optimal` hypotheses where the source
relies on `result.success`). -/
abbrev Solver := LinProg → LPOutcome

/-! Target normalization and nutrient-value extraction of `optimize_mix`. -/

/-- Normalization of the keyword targets:
`{k.replace("target_", "").lower(): v for k, v in targets.items() if v is not None}`. -/
def normTargets (targets : List (String × Option ℚ)) : List (String × ℚ) :=
  targets.filterMap (fun kv =>
    kv.2.map (fun v => (pyLower (pyReplace kv.1 "target_" ""), v)))

/-- Lookup in the `values_dict` of `optimize_mix`: the dict is built for
exactly the seven known nutrients (each a list of per-sample optional
values) and then restricted to the targeted ones, so a targeted nutrient
outside the seven is a `KeyError` (`none` here). -/
def values_dict (samples : List Sample) (nutrient : String) :
    Option (List (Option ℚ)) :=
  if nutrient = "moisture" then some (samples.map Sample.moisture)
  else if nutrient = "cp" then some (samples.map Sample.cp)
  else if nutrient = "fat" then some (samples.map Sample.fat)
  else if nutrient = "tvbn" then some (samples.map Sample.tvbn)
  else if nutrient = "ash" then some (samples.map Sample.ash)
  else if nutrient = "ffa" then some (samples.map Sample.ffa)
  else if nutrient = "fiber" then some (samples.map Sample.fiber)
  else none

/-- Materialization of a list of optional values into plain numbers, as
numpy's row assignment `upper_row[:n] = v` requires: a `None` entry is a
`TypeError` (`none` here).  `optimize_mix` has no `or 0` fallback. -/
def allSome : List (Option ℚ) → Option (List ℚ)
  | [] => some []
  | none :: _ => none
  | some q :: rest => (allSome rest).map (fun l => q :: l)

/-- Data of one targeted nutrient as used in the soft-constraint loop of
`optimize_mix`: its key, target, tolerance and per-sample values. -/
structure NutrientRow where
  nut : String
  target : ℚ
  tol : ℚ
  values : List ℚ
  deriving DecidableEq

/-- The per-nutrient data gathered by the soft-constraint loop of
`optimize_mix`, in target order; `none` when the loop raises (unknown
nutrient key, or a `None` value reaching a numpy row). -/
def softData (samples : List Sample) : List (String × ℚ) →
    Option (List NutrientRow)
  | [] => some []
  | (nut, t) :: rest => do
    let vs ← values_dict samples nut
    let v ← allSome vs
    let tail ← softData samples rest
    pure (⟨nut, t, tolGet nut, v⟩ :: tail)

/-! The four linear programs the source assembles. -/

/-- The soft-constraint program of `optimize_mix`: `n` sample-usage
variables bounded by usable stock, then `m` upper- and `m`
lower-violation variables; objective `1` on every violation variable;
equality rows for the total and the (capped) fixed groups; per targeted
nutrient an upper and a lower soft row. -/
def optimizeProg (samples : List Sample) (total_bags : ℚ)
    (fixed_samples : List (String × ℚ)) (recs : List NutrientRow) : LinProg :=
  let n := samples.length
  let m := recs.length
  { numVars := n + 2 * m
    objective := fun i => if i < n then 0 else 1
    bounds := fun i =>
      if i < n then (0, some ((bagLimits samples).getD i 0)) else (0, none)
    eqRows :=
      ((fun i => if i < n then (1 : ℚ) else 0), total_bags) ::
      (fixedGroups samples fixed_samples).map
        (fun g => ((fun i => if i ∈ g.1 then (1 : ℚ) else 0), g.2))
    ubRows := (recs.enum).flatMap (fun jr =>
      [((fun i => if i < n then jr.2.values.getD i 0
                  else if i = n + jr.1 then -1 else 0),
        (jr.2.target + jr.2.tol) * total_bags),
       ((fun i => if i < n then -(jr.2.values.getD i 0)
                  else if i = n + m + jr.1 then -1 else 0),
        -(jr.2.target - jr.2.tol) * total_bags)]) }

/-- The program of `basic_mix`: usage variables only, zero objective, the
total-equality row and the (capped) fixed groups, no inequality rows. -/
def basicMixProg (samples : List Sample) (total_bags : ℚ)
    (fixed_samples : List (String × ℚ)) : LinProg :=
  { numVars := samples.length
    objective := fun _ => 0
    bounds := fun i => (0, some ((bagLimits samples).getD i 0))
    eqRows :=
      ((fun _ => (1 : ℚ)), total_bags) ::
      (fixedGroups samples fixed_samples).map
        (fun g => ((fun i => if i ∈ g.1 then (1 : ℚ) else 0), g.2))
    ubRows := [] }

/-! Post-processing of `optimize_mix` and `basic_mix`. -/

/-- Result dictionary of `optimize_mix`/`basic_mix`; a `none` field models
a key absent from the returned Python dict. -/
structure MixResult where
  success : Bool
  bags_used : Option (List ℚ) := none
  final_values : Option (List (String × ℚ)) := none
  total_violation : Option ℚ := none
  reason : Option String := none
  details : Option String := none
  deriving DecidableEq

/-- The inner `avg` helper of `optimize_mix`: weighted mean of the first
`n` solution entries (`total_used = sum(bags_used)`), defined as `0` when
the used total is `0`. -/
def avg (values : List ℚ) (n : ℕ) (x : ℕ → ℚ) : ℚ :=
  if (∑ i in Finset.range n, x i) = 0 then 0
  else (∑ i in Finset.range n, values.getD i 0 * x i) / (∑ i in Finset.range n, x i)

/-- Sum of the violation-variable values of a solution
(`sum(result.x[n:])`). -/
def totalViol (n m : ℕ) (x : ℕ → ℚ) : ℚ := ∑ j in Finset.range (2 * m), x (n + j)

/-- Post-processing of the solver outcome in `optimize_mix` (the branch on
`result.success`). -/
def optimizePost (n : ℕ) (recs : List NutrientRow) (outcome : LPOutcome) :
    MixResult :=
  match outcome with
  | .ok x =>
      let tv := totalViol n recs.length x
      { success := decide (tv = 0)
        bags_used := some ((List.range n).map (fun i => round2 (x i)))
        final_values := some (recs.map (fun r => (r.nut, round2 (avg r.values n x))))
        total_violation := some (round2 tv) }
  | .fail message =>
      { success := false
        reason := some "Even with soft constraints, no solution. Check total_bags vs available or fixed values."
        details := some message }

/-- The `basic_mix` entry point. -/
def basic_mix (solver : Solver) (samples : List Sample) (total_bags : ℚ)
    (fixed_samples : List (String × ℚ)) : MixResult :=
  match solver (basicMixProg samples total_bags fixed_samples) with
  | .ok x =>
      { success := true
        bags_used := some ((List.range samples.length).map (fun i => round2 (x i)))
        final_values := some []
        total_violation := some 0 }
  | .fail message => { success := false, reason := some message }

/-- The `optimize_mix` entry point.  The outer `Option` models a Python
exception escaping the call (`none`): the only raising step is the
soft-constraint data gathering. -/
def optimize_mix (solver : Solver) (samples : List Sample) (total_bags : ℚ)
    (fixed_samples : List (String × ℚ))
    (targets : List (String × Option ℚ)) : Option MixResult :=
  let ts := normTargets targets
  if ts.isEmpty then some (basic_mix solver samples total_bags fixed_samples)
  else
    (softData samples ts).map (fun recs =>
      optimizePost samples.length recs
        (solver (optimizeProg samples total_bags fixed_samples recs)))

/-! The `get_achievable_range` and `get_closest_feasible_targets` entry
points. -/

/-- Python's `getattr(s, nutrient)` restricted to the seven nutrient
attributes; `none` at the outer layer models an `AttributeError` for any
other name. -/
def getAttrField (s : Sample) (nutrient : String) : Option (Option ℚ) :=
  if nutrient = "moisture" then some s.moisture
  else if nutrient = "cp" then some s.cp
  else if nutrient = "fat" then some s.fat
  else if nutrient = "tvbn" then some s.tvbn
  else if nutrient = "ash" then some s.ash
  else if nutrient = "ffa" then some s.ffa
  else if nutrient = "fiber" then some s.fiber
  else none

/-- Value extraction of `get_achievable_range`:
`[getattr(s, nutrient) or 0 for s in samples]` (a missing value
contributes `0`; the attribute name is used verbatim). -/
def rangeValues (samples : List Sample) (nutrient : String) :
    Option (List ℚ) :=
  samples.mapM (fun s => (getAttrField s nutrient).map (fun o => o.getD 0))

/-- The minimization program of `get_achievable_range` (`c_min = values`). -/
def rangeProgMin (samples : List Sample) (values : List ℚ)
    (total_bags : ℚ) : LinProg :=
  { numVars := samples.length
    objective := fun i => values.getD i 0
    bounds := fun i => (0, some ((bagLimits samples).getD i 0))
    eqRows := [((fun _ => (1 : ℚ)), total_bags)]
    ubRows := [] }

/-- The maximization program of `get_achievable_range`
(`c_max = -values`). -/
def rangeProgMax (samples : List Sample) (values : List ℚ)
    (total_bags : ℚ) : LinProg :=
  { numVars := samples.length
    objective := fun i => -(values.getD i 0)
    bounds := fun i => (0, some ((bagLimits samples).getD i 0))
    eqRows := [((fun _ => (1 : ℚ)), total_bags)]
    ubRows := [] }

/-- The `get_achievable_range` entry point.  Outer `Option`: a Python
exception (`none`) — an unknown attribute name, or the
`ZeroDivisionError` from `-res_max.fun / total_bags` when
`total_bags = 0` (`res.fun` from scipy-HiGHS is a plain Python float, so
that division raises instead of producing numpy's `nan`).  Inner
`Option`: the Python result, `None` when either sub-solve fails, else
the rounded, clamped `(min, max)` pair; `res.fun` is the objective value
at the returned vector. -/
def get_achievable_range (solver : Solver) (samples : List Sample)
    (nutrient : String) (total_bags : ℚ) : Option (Option (ℚ × ℚ)) :=
  (rangeValues samples nutrient).bind (fun values =>
    match solver (rangeProgMax samples values total_bags),
          solver (rangeProgMin samples values total_bags) with
    | .ok xmax, .ok xmin =>
        if total_bags = 0 then none
        else
          some (some
            (round2 (max 0 (objVal (rangeProgMin samples values total_bags) xmin
                / total_bags)),
             round2 (max 0 (-(objVal (rangeProgMax samples values total_bags) xmax)
                / total_bags))))
    | _, _ => some none)

/-- The program of `get_closest_feasible_targets`: usage plus two
deviation variables per targeted nutrient, deviation measured from the
target itself (no tolerance band), fixed groups uncapped. -/
def closestProg (samples : List Sample) (total_bags : ℚ)
    (tv : List (String × ℚ × List ℚ))
    (fixed_samples : List (String × ℚ)) : LinProg :=
  let n := samples.length
  let m := tv.length
  { numVars := n + 2 * m
    objective := fun i => if i < n then 0 else 1
    bounds := fun i =>
      if i < n then (0, some ((bagLimits samples).getD i 0)) else (0, none)
    eqRows :=
      ((fun i => if i < n then (1 : ℚ) else 0), total_bags) ::
      (fixedGroupsClosest samples fixed_samples).map
        (fun g => ((fun i => if i ∈ g.1 then (1 : ℚ) else 0), g.2))
    ubRows := (tv.enum).flatMap (fun jr =>
      [((fun i => if i < n then jr.2.2.2.getD i 0
                  else if i = n + jr.1 then -1 else 0),
        jr.2.2.1 * total_bags),
       ((fun i => if i < n then -(jr.2.2.2.getD i 0)
                  else if i = n + m + jr.1 then -1 else 0),
        -(jr.2.2.1 * total_bags))]) }

lemma sum_range_split (N n : ℕ) (h : n ≤ N) (f : ℕ → ℚ) :
    ∑ i in Finset.range N, f i
      = (∑ i in Finset.range n, f i) + ∑ i in Finset.Ico n N, f i := by
  rw [Finset.range_eq_Ico, ← Finset.sum_Ico_consecutive f (Nat.zero_le n) h,
    ← Finset.range_eq_Ico]

lemma dotN_const_one (n : ℕ) (x : ℕ → ℚ) :
    dotN n (fun _ => 1) x = ∑ i in Finset.range n, x i := by
  simp [dotN]

lemma dotN_lt_one (n N2 : ℕ) (x : ℕ → ℚ) :
    dotN (n + N2) (fun i => if i < n then (1 : ℚ) else 0) x
      = ∑ i in Finset.range n, x i := by
  unfold dotN
  rw [sum_range_split (n + N2) n (Nat.le_add_right n N2)]
  have h1 : ∀ i ∈ Finset.range n, (if i < n then (1 : ℚ) else 0) * x i = x i := by
    intro i hi; rw [Finset.mem_range] at hi; simp [hi]
  have h2 : ∀ i ∈ Finset.Ico n (n + N2),
      (if i < n then (1 : ℚ) else 0) * x i = 0 := by
    intro i hi; rw [Finset.mem_Ico] at hi; simp [Nat.not_lt.mpr hi.1]
  rw [Finset.sum_congr rfl h1, Finset.sum_eq_zero h2, add_zero]

lemma dotN_indicator (N : ℕ) (M : List ℕ) (x : ℕ → ℚ)
    (hM : ∀ i ∈ M, i < N) :
    dotN N (fun i => if i ∈ M then (1 : ℚ) else 0) x
      = ∑ i in M.toFinset, x i := by
  unfold dotN
  have h1 : ∀ i ∈ Finset.range N, (if i ∈ M then (1 : ℚ) else 0) * x i
      = if i ∈ M.toFinset then x i else 0 := by
    intro i _; by_cases h : i ∈ M <;> simp [h]
  rw [Finset.sum_congr rfl h1, Finset.sum_ite_mem]
  congr 1
  ext a
  simp only [Finset.mem_inter, Finset.mem_range, List.mem_toFinset]
  exact ⟨fun h => h.2, fun h => ⟨hM a h, h⟩⟩

lemma dotN_vrow (n N2 k : ℕ) (v : ℕ → ℚ) (c : ℚ) (x : ℕ → ℚ)
    (hk1 : n ≤ k) (hk2 : k < n + N2) :
    dotN (n + N2) (fun i => if i < n then v i else if i = k then c else 0) x
      = (∑ i in Finset.range n, v i * x i) + c * x k := by
  unfold dotN
  rw [sum_range_split (n + N2) n (Nat.le_add_right n N2)]
  have h1 : ∀ i ∈ Finset.range n,
      (if i < n then v i else if i = k then c else 0) * x i = v i * x i := by
    intro i hi; rw [Finset.mem_range] at hi; simp [hi]
  have h2 : ∀ i ∈ Finset.Ico n (n + N2),
      (if i < n then v i else if i = k then c else 0) * x i
        = if i = k then c * x i else 0 := by
    intro i hi; rw [Finset.mem_Ico] at hi
    rw [if_neg (Nat.not_lt.mpr hi.1)]
    by_cases h : i = k <;> simp [h]
  rw [Finset.sum_congr rfl h1, Finset.sum_congr rfl h2]
  congr 1
  rw [Finset.sum_ite_eq' (Finset.Ico n (n + N2)) k (fun i => c * x i)]
  simp [Finset.mem_Ico, hk1, hk2]

lemma dotN_tail_ones (n N2 : ℕ) (x : ℕ → ℚ) :
    dotN (n + N2) (fun i => if i < n then (0 : ℚ) else 1) x
      = ∑ j in Finset.range N2, x (n + j) := by
  unfold dotN
  rw [sum_range_split (n + N2) n (Nat.le_add_right n N2)]
  have h1 : ∀ i ∈ Finset.range n, (if i < n then (0 : ℚ) else 1) * x i = 0 := by
    intro i hi; rw [Finset.mem_range] at hi; simp [hi]
  have h2 : ∀ i ∈ Finset.Ico n (n + N2),
      (if i < n then (0 : ℚ) else 1) * x i = x i := by
    intro i hi; rw [Finset.mem_Ico] at hi; simp [Nat.not_lt.mpr hi.1]
  rw [Finset.sum_eq_zero h1, Finset.sum_congr rfl h2, zero_add,
    Finset.sum_Ico_eq_sum_range]
  simp

lemma bagLimits_getD (samples : List Sample) (i : ℕ) (h : i < samples.length) :
    (bagLimits samples).getD i 0
      = max 0 (samples.get ⟨i, h⟩).remaining_quantity := by
  simp [bagLimits, List.getD_eq_getElem?_getD, List.getElem?_map,
    List.getElem?_eq_getElem, h, List.get_eq_getElem]

lemma withinBounds_some (u v : ℚ) : withinBounds (0, some u) v ↔ 0 ≤ v ∧ v ≤ u :=
  Iff.rfl

lemma withinBounds_none (v : ℚ) : withinBounds ((0 : ℚ), (none : Option ℚ)) v ↔ 0 ≤ v := by
  unfold withinBounds
  simp

/-! Helper lemmas: the matching rule and the fixed-allocation groups. -/

lemma mem_matchingIndices {samples : List Sample} {key : String} {i : ℕ} :
    i ∈ matchingIndices samples key ↔
      ∃ h : i < samples.length, matchKey key (samples.get ⟨i, h⟩) = true := by
  unfold matchingIndices
  simp only [List.mem_map, List.mem_filter]
  constructor
  · rintro ⟨⟨j, s⟩, ⟨hmem, hmk⟩, rfl⟩
    rw [List.mk_mem_enum_iff_getElem?] at hmem
    have hj : j < samples.length := by
      by_contra h
      rw [List.getElem?_eq_none (Nat.le_of_not_lt h)] at hmem
      exact Option.noConfusion hmem
    refine ⟨hj, ?_⟩
    rw [List.getElem?_eq_getElem hj] at hmem
    rw [List.get_eq_getElem, Option.some_inj.mp hmem]
    exact hmk
  · rintro ⟨h, hmk⟩
    refine ⟨(i, samples.get ⟨i, h⟩), ⟨?_, hmk⟩, rfl⟩
    rw [List.mk_mem_enum_iff_getElem?, List.getElem?_eq_getElem h,
      List.get_eq_getElem]

lemma matchingIndices_lt {samples : List Sample} {key : String} {i : ℕ}
    (h : i ∈ matchingIndices samples key) : i < samples.length :=
  (mem_matchingIndices.mp h).1

lemma matchingIndices_nodup (samples : List Sample) (key : String) :
    (matchingIndices samples key).Nodup := by
  unfold matchingIndices
  exact ((List.filter_sublist _).map Prod.fst).nodup
    (List.nodup_enum_map_fst samples)

lemma mem_fixedGroups_of {samples : List Sample} {fixed : List (String × ℚ)}
    {key : String} {val : ℚ} (hkv : (key, val) ∈ fixed)
    (hne : matchingIndices samples key ≠ []) :
    (matchingIndices samples key,
      min val (((matchingIndices samples key).map
        (fun i => (bagLimits samples).getD i 0)).sum))
      ∈ fixedGroups samples fixed := by
  unfold fixedGroups
  refine List.mem_filterMap.mpr ⟨(key, val), hkv, ?_⟩
  simp [List.isEmpty_iff, hne]

lemma mem_fixedGroups_elim {samples : List Sample} {fixed : List (String × ℚ)}
    {g : List ℕ × ℚ} (hg : g ∈ fixedGroups samples fixed) :
    ∃ kv ∈ fixed, matchingIndices samples kv.1 ≠ [] ∧
      g = (matchingIndices samples kv.1,
        min kv.2 (((matchingIndices samples kv.1).map
          (fun i => (bagLimits samples).getD i 0)).sum)) := by
  unfold fixedGroups at hg
  obtain ⟨kv, hkv, heq⟩ := List.mem_filterMap.mp hg
  by_cases hne : matchingIndices samples kv.1 = []
  · simp [hne] at heq
  · refine ⟨kv, hkv, hne, ?_⟩
    simp only [List.isEmpty_iff, hne, if_neg] at heq
    exact (Option.some_inj.mp heq).symm

/-! Helper lemmas: what feasibility for the assembled programs means. -/

lemma feasible_optimize_sum {samples : List Sample} {T : ℚ}
    {fixed : List (String × ℚ)} {recs : List NutrientRow} {x : ℕ → ℚ}
    (hf : Feasible (optimizeProg samples T fixed recs) x) :
    ∑ i in Finset.range samples.length, x i = T := by
  have h := hf.2.1
    ((fun i => if i < samples.length then (1 : ℚ) else 0), T)
    (List.mem_cons_self _ _)
  have hn : (optimizeProg samples T fixed recs).numVars
      = samples.length + 2 * recs.length := rfl
  rw [hn, dotN_lt_one] at h
  exact h

lemma feasible_optimize_bounds {samples : List Sample} {T : ℚ}
    {fixed : List (String × ℚ)} {recs : List NutrientRow} {x : ℕ → ℚ}
    (hf : Feasible (optimizeProg samples T fixed recs) x)
    (i : ℕ) (hi : i < samples.length) :
    0 ≤ x i ∧ x i ≤ (bagLimits samples).getD i 0 := by
  have hb := hf.1 i (lt_of_lt_of_le hi (Nat.le_add_right _ _))
  have hbe : (optimizeProg samples T fixed recs).bounds i
      = (0, some ((bagLimits samples).getD i 0)) := by
    simp [optimizeProg, hi]
  rw [hbe] at hb
  exact (withinBounds_some _ _).mp hb

lemma feasible_optimize_viol_nonneg {samples : List Sample} {T : ℚ}
    {fixed : List (String × ℚ)} {recs : List NutrientRow} {x : ℕ → ℚ}
    (hf : Feasible (optimizeProg samples T fixed recs) x)
    (j : ℕ) (hj : j < 2 * recs.length) :
    0 ≤ x (samples.length + j) := by
  have hn : (optimizeProg samples T fixed recs).numVars
      = samples.length + 2 * recs.length := rfl
  have hb := hf.1 (samples.length + j) (by rw [hn]; omega)
  have hbe : (optimizeProg samples T fixed recs).bounds (samples.length + j)
      = (0, none) := by
    simp [optimizeProg]
  rw [hbe] at hb
  exact (withinBounds_none _).mp hb

lemma objVal_optimizeProg (samples : List Sample) (T : ℚ)
    (fixed : List (String × ℚ)) (recs : List NutrientRow) (x : ℕ → ℚ) :
    objVal (optimizeProg samples T fixed recs) x
      = totalViol samples.length recs.length x :=
  dotN_tail_ones samples.length (2 * recs.length) x

lemma totalViol_nonneg_of_feasible {samples : List Sample} {T : ℚ}
    {fixed : List (String × ℚ)} {recs : List NutrientRow} {x : ℕ → ℚ}
    (hf : Feasible (optimizeProg samples T fixed recs) x) :
    0 ≤ totalViol samples.length recs.length x :=
  Finset.sum_nonneg (fun j hj =>
    feasible_optimize_viol_nonneg hf j (Finset.mem_range.mp hj))

lemma feasible_basic_sum {samples : List Sample} {T : ℚ}
    {fixed : List (String × ℚ)} {x : ℕ → ℚ}
    (hf : Feasible (basicMixProg samples T fixed) x) :
    ∑ i in Finset.range samples.length, x i = T := by
  have h := hf.2.1 ((fun _ => (1 : ℚ)), T) (List.mem_cons_self _ _)
  rw [show (basicMixProg samples T fixed).numVars = samples.length from rfl,
    dotN_const_one] at h
  exact h

lemma feasible_basic_bounds {samples : List Sample} {T : ℚ}
    {fixed : List (String × ℚ)} {x : ℕ → ℚ}
    (hf : Feasible (basicMixProg samples T fixed) x)
    (i : ℕ) (hi : i < samples.length) :
    0 ≤ x i ∧ x i ≤ (bagLimits samples).getD i 0 := by
  have hb := hf.1 i hi
  exact (withinBounds_some _ _).mp hb

lemma mem_fixedGroupsClosest_elim {samples : List Sample}
    {fixed : List (String × ℚ)} {g : List ℕ × ℚ}
    (hg : g ∈ fixedGroupsClosest samples fixed) :
    ∃ kv ∈ fixed, matchingIndices samples kv.1 ≠ [] ∧
      g = (matchingIndices samples kv.1, kv.2) := by
  unfold fixedGroupsClosest at hg
  obtain ⟨kv, hkv, heq⟩ := List.mem_filterMap.mp hg
  by_cases hne : matchingIndices samples kv.1 = []
  · simp [hne] at heq
  · refine ⟨kv, hkv, hne, ?_⟩
    simp only [List.isEmpty_iff, hne, if_neg] at heq
    exact (Option.some_inj.mp heq).symm

lemma optimize_ub_upper_mem (samples : List Sample) (T : ℚ)
    (fixed : List (String × ℚ)) (recs : List NutrientRow)
    (j : ℕ) (hj : j < recs.length) :
    ((fun i => if i < samples.length then (recs.get ⟨j, hj⟩).values.getD i 0
               else if i = samples.length + j then -1 else 0),
     ((recs.get ⟨j, hj⟩).target + (recs.get ⟨j, hj⟩).tol) * T)
      ∈ (optimizeProg samples T fixed recs).ubRows := by
  refine List.mem_flatMap.mpr ⟨(j, recs.get ⟨j, hj⟩), ?_, ?_⟩
  · rw [List.mk_mem_enum_iff_getElem?, List.getElem?_eq_getElem hj,
      List.get_eq_getElem]
  · exact List.mem_cons_self _ _

lemma optimize_ub_lower_mem (samples : List Sample) (T : ℚ)
    (fixed : List (String × ℚ)) (recs : List NutrientRow)
    (j : ℕ) (hj : j < recs.length) :
    ((fun i => if i < samples.length then -((recs.get ⟨j, hj⟩).values.getD i 0)
               else if i = samples.length + recs.length + j then -1 else 0),
     -((recs.get ⟨j, hj⟩).target - (recs.get ⟨j, hj⟩).tol) * T)
      ∈ (optimizeProg samples T fixed recs).ubRows := by
  refine List.mem_flatMap.mpr ⟨(j, recs.get ⟨j, hj⟩), ?_, ?_⟩
  · rw [List.mk_mem_enum_iff_getElem?, List.getElem?_eq_getElem hj,
      List.get_eq_getElem]
  · exact List.mem_cons_of_mem _ (List.mem_cons_self _ _)

lemma optimize_ub_elim {samples : List Sample} {T : ℚ}
    {fixed : List (String × ℚ)} {recs : List NutrientRow}
    {rc : (ℕ → ℚ) × ℚ} (hrc : rc ∈ (optimizeProg samples T fixed recs).ubRows) :
    ∃ j, ∃ hj : j < recs.length,
      rc = ((fun i => if i < samples.length then (recs.get ⟨j, hj⟩).values.getD i 0
                      else if i = samples.length + j then -1 else 0),
            ((recs.get ⟨j, hj⟩).target + (recs.get ⟨j, hj⟩).tol) * T) ∨
      rc = ((fun i => if i < samples.length then -((recs.get ⟨j, hj⟩).values.getD i 0)
                      else if i = samples.length + recs.length + j then -1 else 0),
            -((recs.get ⟨j, hj⟩).target - (recs.get ⟨j, hj⟩).tol) * T) := by
  obtain ⟨⟨j, r⟩, hmem, hin⟩ := List.mem_flatMap.mp hrc
  rw [List.mk_mem_enum_iff_getElem?] at hmem
  have hj : j < recs.length := by
    by_contra h
    rw [List.getElem?_eq_none (Nat.le_of_not_lt h)] at hmem
    exact Option.noConfusion hmem
  rw [List.getElem?_eq_getElem hj] at hmem
  have hr : r = recs.get ⟨j, hj⟩ := by
    rw [List.get_eq_getElem]; exact (Option.some_inj.mp hmem).symm
  subst hr
  rcases List.mem_cons.mp hin with h | h
  · exact ⟨j, hj, Or.inl h⟩
  · rcases List.mem_cons.mp h with h2 | h2
    · exact ⟨j, hj, Or.inr h2⟩
    · exact absurd h2 (List.not_mem_nil _)

lemma feasible_fixed_pin_optimize {samples : List Sample} {T : ℚ}
    {fixed : List (String × ℚ)} {recs : List NutrientRow} {x : ℕ → ℚ}
    {g : List ℕ × ℚ}
    (hf : Feasible (optimizeProg samples T fixed recs) x)
    (hg : g ∈ fixedGroups samples fixed) :
    ∑ i in g.1.toFinset, x i = g.2 := by
  have hrow := hf.2.1 ((fun i => if i ∈ g.1 then (1 : ℚ) else 0), g.2)
    (List.mem_cons_of_mem _ (List.mem_map.mpr ⟨g, hg, rfl⟩))
  have hn : (optimizeProg samples T fixed recs).numVars
      = samples.length + 2 * recs.length := rfl
  have hlt : ∀ i ∈ g.1, i < (optimizeProg samples T fixed recs).numVars := by
    obtain ⟨kv, _, _, hgeq⟩ := mem_fixedGroups_elim hg
    intro i hi
    rw [hgeq] at hi
    have := matchingIndices_lt hi
    rw [hn]; omega
  rw [dotN_indicator _ _ _ hlt] at hrow
  exact hrow

lemma feasible_fixed_pin_basic {samples : List Sample} {T : ℚ}
    {fixed : List (String × ℚ)} {x : ℕ → ℚ} {g : List ℕ × ℚ}
    (hf : Feasible (basicMixProg samples T fixed) x)
    (hg : g ∈ fixedGroups samples fixed) :
    ∑ i in g.1.toFinset, x i = g.2 := by
  have hrow := hf.2.1 ((fun i => if i ∈ g.1 then (1 : ℚ) else 0), g.2)
    (List.mem_cons_of_mem _ (List.mem_map.mpr ⟨g, hg, rfl⟩))
  have hlt : ∀ i ∈ g.1, i < (basicMixProg samples T fixed).numVars := by
    obtain ⟨kv, _, _, hgeq⟩ := mem_fixedGroups_elim hg
    intro i hi
    rw [hgeq] at hi
    exact matchingIndices_lt hi
  rw [dotN_indicator _ _ _ hlt] at hrow
  exact hrow

/-! Helper lemmas: failure propagation in the soft-constraint data. -/

lemma allSome_eq_none {vs : List (Option ℚ)} (h : none ∈ vs) :
    allSome vs = none := by
  induction vs with
  | nil => cases h
  | cons v rest ih =>
    cases v with
    | none => rfl
    | some q =>
      rcases List.mem_cons.mp h with h1 | h2
      · exact Option.noConfusion h1
      · simp [allSome, ih h2]

lemma softData_none_of_values_none {samples : List Sample}
    {targets : List (String × ℚ)} {nut : String} {t : ℚ}
    (hmem : (nut, t) ∈ targets) (hvd : values_dict samples nut = none) :
    softData samples targets = none := by
  induction targets with
  | nil => cases hmem
  | cons kv rest ih =>
    obtain ⟨nut0, t0⟩ := kv
    rcases List.mem_cons.mp hmem with heq | hmem2
    · obtain ⟨h1, h2⟩ := Prod.mk.injEq nut t nut0 t0 ▸ heq
      subst h1
      simp [softData, hvd]
    · simp only [softData]
      cases hvd0 : values_dict samples nut0 with
      | none => rfl
      | some vs =>
        cases hall : allSome vs with
        | none => simp [hall]
        | some v => simp [hall, ih hmem2]

lemma softData_none_of_missing {samples : List Sample}
    {targets : List (String × ℚ)} {nut : String} {t : ℚ} {vs : List (Option ℚ)}
    (hmem : (nut, t) ∈ targets) (hvd : values_dict samples nut = some vs)
    (hvs : none ∈ vs) :
    softData samples targets = none := by
  induction targets with
  | nil => cases hmem
  | cons kv rest ih =>
    obtain ⟨nut0, t0⟩ := kv
    rcases List.mem_cons.mp hmem with heq | hmem2
    · obtain ⟨h1, h2⟩ := Prod.mk.injEq nut t nut0 t0 ▸ heq
      subst h1
      simp [softData, hvd, allSome_eq_none hvs]
    · simp only [softData]
      cases hvd0 : values_dict samples nut0 with
      | none => rfl
      | some vs0 =>
        cases hall : allSome vs0 with
        | none => simp [hall]
        | some v => simp [hall, ih hmem2]

/-! Claim C1. -/

/-- C1: whenever `optimize_mix` or `basic_mix` obtains a solution from the
LP solver (any point satisfying the program it assembled), the used
quantities of the samples sum exactly to `total_bags`, and each sample's
used quantity `x i` satisfies `0 ≤ x i ≤ max 0 remaining_quantity_i`. -/
theorem spec_c1_allocation_invariants (samples : List Sample) (T : ℚ)
    (fixed : List (String × ℚ)) (recs : List NutrientRow) (x : ℕ → ℚ)
    (hf : Feasible (optimizeProg samples T fixed recs) x ∨
          Feasible (basicMixProg samples T fixed) x) :
    (∑ i in Finset.range samples.length, x i) = T ∧
    ∀ i, ∀ h : i < samples.length,
      0 ≤ x i ∧ x i ≤ max 0 (samples.get ⟨i, h⟩).remaining_quantity := by
  rcases hf with hf | hf
  · refine ⟨feasible_optimize_sum hf, ?_⟩
    intro i h
    have hb := feasible_optimize_bounds hf i h
    rwa [bagLimits_getD samples i h] at hb
  · refine ⟨feasible_basic_sum hf, ?_⟩
    intro i h
    have hb := feasible_basic_bounds hf i h
    rwa [bagLimits_getD samples i h] at hb

/-- Concrete sample list used by the C1 witness. -/
def c1Samples : List Sample := [{ name := "A", remaining_quantity := 12 }]

/-- Concrete solver vector used by the C1 witness. -/
def c1x : ℕ → ℚ := fun i => if i = 0 then 10 else 0

/-- Witness for C1 at a concrete feasible point of the basic-mix program. -/
theorem spec_c1_allocation_invariants_w :
    (∑ i in Finset.range c1Samples.length, c1x i) = 10 ∧
    ∀ i, ∀ h : i < c1Samples.length,
      0 ≤ c1x i ∧ c1x i ≤ max 0 (c1Samples.get ⟨i, h⟩).remaining_quantity :=
  spec_c1_allocation_invariants c1Samples 10 [] [] c1x (Or.inr (by
    refine ⟨?_, ?_, ?_⟩
    · intro i hi
      have hi0 : i = 0 := by
        simpa [basicMixProg, c1Samples, Nat.lt_one_iff] using hi
      subst hi0
      norm_num [basicMixProg, withinBounds, bagLimits, c1Samples, c1x]
    · intro rc hrc
      simp only [basicMixProg, fixedGroups, c1Samples, List.filterMap_nil,
        List.map_nil, List.mem_cons, List.not_mem_nil, or_false] at hrc
      subst hrc
      norm_num [dotN, basicMixProg, c1Samples, c1x, Finset.sum_range_succ]
    · intro rc hrc
      simp [basicMixProg] at hrc))

/-! Claim C2. -/

/-- C2 (amended: requires positive `total_bags`): for a successful
`optimize_mix` solve with a non-empty set of targets, the sum of the
violation-variable values — the exact quantity whose vanishing defines the
reported success — is `0` iff every targeted nutrient's achieved weighted
average lies within `[target − tolerance, target + tolerance]`.  The
original claim, with no restriction on `total_bags`, fails at
`total_bags = 0` (see the counterexample theorem). -/
theorem spec_c2_viol_zero_iff_in_band (samples : List Sample) (T : ℚ)
    (fixed : List (String × ℚ)) (targets : List (String × ℚ))
    (recs : List NutrientRow) (x : ℕ → ℚ)
    (_hrecs : softData samples targets = some recs)
    (hT : 0 < T)
    (hopt : Optimal (optimizeProg samples T fixed recs) x) :
    totalViol samples.length recs.length x = 0 ↔
      ∀ r ∈ recs, r.target - r.tol ≤ avg r.values samples.length x ∧
        avg r.values samples.length x ≤ r.target + r.tol := by
  have hf := hopt.1
  have hsum := feasible_optimize_sum hf
  have havg : ∀ r : NutrientRow,
      avg r.values samples.length x
        = (∑ i in Finset.range samples.length, r.values.getD i 0 * x i) / T := by
    intro r
    simp only [avg]
    rw [hsum, if_neg (ne_of_gt hT)]
  have hnum : (optimizeProg samples T fixed recs).numVars
      = samples.length + 2 * recs.length := rfl
  constructor
  · intro h0 r hr
    obtain ⟨⟨j, hj⟩, hget⟩ := List.mem_iff_get.mp hr
    subst hget
    have hviol : ∀ k, k < 2 * recs.length → x (samples.length + k) = 0 := by
      intro k hk
      have hz := (Finset.sum_eq_zero_iff_of_nonneg (fun k2 hk2 =>
        feasible_optimize_viol_nonneg hf k2 (Finset.mem_range.mp hk2))).mp h0
      exact hz k (Finset.mem_range.mpr hk)
    have hup := hf.2.2 _ (optimize_ub_upper_mem samples T fixed recs j hj)
    have hlow := hf.2.2 _ (optimize_ub_lower_mem samples T fixed recs j hj)
    have hupe := dotN_vrow samples.length (2 * recs.length) (samples.length + j)
      (fun i => (recs.get ⟨j, hj⟩).values.getD i 0) (-1) x
      (Nat.le_add_right _ _) (by omega)
    have hlowe := dotN_vrow samples.length (2 * recs.length)
      (samples.length + recs.length + j)
      (fun i => -((recs.get ⟨j, hj⟩).values.getD i 0)) (-1) x
      (by omega) (by omega)
    rw [hnum, hupe] at hup
    rw [hnum, hlowe] at hlow
    have hxj : x (samples.length + j) = 0 := hviol j (by omega)
    have hxmj : x (samples.length + recs.length + j) = 0 := by
      have harith : samples.length + recs.length + j
          = samples.length + (recs.length + j) := by omega
      rw [harith]
      exact hviol (recs.length + j) (by omega)
    simp only [hxj, hxmj, mul_zero, add_zero, neg_mul,
      Finset.sum_neg_distrib] at hup hlow
    rw [havg]
    constructor
    · exact (le_div_iff₀ hT).mpr (by linarith)
    · exact (div_le_iff₀ hT).mpr (by linarith)
  · intro hband
    have hyfeas : Feasible (optimizeProg samples T fixed recs)
        (fun i => if i < samples.length then x i else 0) := by
      refine ⟨?_, ?_, ?_⟩
      · intro i hi
        by_cases hin : i < samples.length
        · have hb := hf.1 i hi
          have hbe : (optimizeProg samples T fixed recs).bounds i
              = (0, some ((bagLimits samples).getD i 0)) := by
            simp [optimizeProg, hin]
          rw [hbe] at hb ⊢
          simpa [hin] using hb
        · have hbe : (optimizeProg samples T fixed recs).bounds i
              = (0, none) := by
            simp [optimizeProg, hin]
          rw [hbe]
          rw [withinBounds_none]
          simp [hin]
      · intro rc hrc
        rcases List.mem_cons.mp hrc with heq | hmem
        · subst heq
          rw [hnum, dotN_lt_one]
          rw [Finset.sum_congr rfl
            (fun i hi => if_pos (Finset.mem_range.mp hi))]
          exact hsum
        · obtain ⟨g, hg, hgeq⟩ := List.mem_map.mp hmem
          subst hgeq
          have hlt : ∀ i ∈ g.1, i < (optimizeProg samples T fixed recs).numVars := by
            obtain ⟨kv, _, _, hgq⟩ := mem_fixedGroups_elim hg
            intro i hi
            rw [hgq] at hi
            have := matchingIndices_lt hi
            rw [hnum]; omega
          show dotN _ _ _ = _
          rw [dotN_indicator _ _ _ hlt]
          have hglt : ∀ i ∈ g.1.toFinset, i < samples.length := by
            obtain ⟨kv, _, _, hgq⟩ := mem_fixedGroups_elim hg
            intro i hi
            rw [List.mem_toFinset, hgq] at hi
            exact matchingIndices_lt hi
          rw [Finset.sum_congr rfl (fun i hi => if_pos (hglt i hi))]
          exact feasible_fixed_pin_optimize hf hg
      · intro rc hrc
        obtain ⟨j, hj, hcase⟩ := optimize_ub_elim hrc
        have hbandj := hband _ (List.get_mem recs j hj)
        rw [havg] at hbandj
        have hsumle : ∑ i in Finset.range samples.length,
            (recs.get ⟨j, hj⟩).values.getD i 0 * x i
            ≤ ((recs.get ⟨j, hj⟩).target + (recs.get ⟨j, hj⟩).tol) * T :=
          (div_le_iff₀ hT).mp hbandj.2
        have hsumge : ((recs.get ⟨j, hj⟩).target - (recs.get ⟨j, hj⟩).tol) * T
            ≤ ∑ i in Finset.range samples.length,
              (recs.get ⟨j, hj⟩).values.getD i 0 * x i :=
          (le_div_iff₀ hT).mp hbandj.1
        have hyeq : ∀ (v : ℕ → ℚ), ∑ i in Finset.range samples.length,
            v i * (if i < samples.length then x i else 0)
            = ∑ i in Finset.range samples.length, v i * x i := by
          intro v
          exact Finset.sum_congr rfl (fun i hi => by
            rw [if_pos (Finset.mem_range.mp hi)])
        rcases hcase with hceq | hceq <;> subst hceq
        · have hve := dotN_vrow samples.length (2 * recs.length)
            (samples.length + j)
            (fun i => (recs.get ⟨j, hj⟩).values.getD i 0) (-1)
            (fun i => if i < samples.length then x i else 0)
            (Nat.le_add_right _ _) (by omega)
          rw [hnum, hve, hyeq]
          have h0 : (if samples.length + j < samples.length then x (samples.length + j) else (0 : ℚ)) = 0 :=
            if_neg (by omega)
          simp only [h0, mul_zero, add_zero]
          linarith
        · have hve := dotN_vrow samples.length (2 * recs.length)
            (samples.length + recs.length + j)
            (fun i => -((recs.get ⟨j, hj⟩).values.getD i 0)) (-1)
            (fun i => if i < samples.length then x i else 0)
            (by omega) (by omega)
          rw [hnum, hve]
          have hneg : ∑ i in Finset.range samples.length,
              (-((recs.get ⟨j, hj⟩).values.getD i 0))
                * (if i < samples.length then x i else 0)
              = -(∑ i in Finset.range samples.length,
                  (recs.get ⟨j, hj⟩).values.getD i 0 * x i) := by
            rw [← Finset.sum_neg_distrib]
            exact Finset.sum_congr rfl (fun i hi => by
              rw [if_pos (Finset.mem_range.mp hi)]; ring)
          rw [hneg]
          have h0 : (if samples.length + recs.length + j < samples.length then x (samples.length + recs.length + j) else (0 : ℚ)) = 0 :=
            if_neg (by omega)
          simp only [h0, mul_zero, add_zero]
          linarith
    have hobj := hopt.2 _ hyfeas
    rw [objVal_optimizeProg, objVal_optimizeProg] at hobj
    have hy0 : totalViol samples.length recs.length
        (fun i => if i < samples.length then x i else 0) = 0 := by
      unfold totalViol
      apply Finset.sum_eq_zero
      intro k _
      exact if_neg (by omega)
    rw [hy0] at hobj
    exact le_antisymm hobj (totalViol_nonneg_of_feasible hf)

/-- Concrete sample list for the C2 witness and counterexample: one sample
with crude protein 50 and stock 10. -/
def c2Samples : List Sample :=
  [{ name := "A", cp := some 50, remaining_quantity := 10 }]

/-- Soft-constraint data of `c2Samples` with target `cp = 50`. -/
def c2Recs : List NutrientRow := [⟨"cp", 50, 1/2, [50]⟩]

/-- Concrete optimal vector for the C2 witness (`total_bags = 10`). -/
def c2xw : ℕ → ℚ := fun i => if i = 0 then 10 else 0

lemma c2_softData : softData c2Samples [("cp", 50)] = some c2Recs := rfl

lemma c2w_feasible : Feasible (optimizeProg c2Samples 10 [] c2Recs) c2xw := by
  refine ⟨?_, ?_, ?_⟩
  · intro i hi
    have hi3 : i < 3 := hi
    interval_cases i <;>
      norm_num [optimizeProg, withinBounds, bagLimits, c2Samples, c2Recs, c2xw]
  · intro rc hrc
    have hrc2 : rc ∈ [((fun i => if i < c2Samples.length then (1 : ℚ) else 0),
        (10 : ℚ))] := hrc
    rcases List.mem_cons.mp hrc2 with heq | habs
    · subst heq
      show dotN (optimizeProg c2Samples 10 [] c2Recs).numVars _ c2xw = _
      norm_num [dotN, optimizeProg, c2Samples, c2Recs, c2xw,
        Finset.sum_range_succ]
    · exact absurd habs (List.not_mem_nil _)
  · intro rc hrc
    have hrc2 : rc ∈
        [((fun i => if i < c2Samples.length then ([(50 : ℚ)]).getD i 0
                    else if i = 1 then (-1 : ℚ) else 0), ((50 : ℚ) + 1/2) * 10),
         ((fun i => if i < c2Samples.length then -(([(50 : ℚ)]).getD i 0)
                    else if i = 2 then (-1 : ℚ) else 0), -((50 : ℚ) - 1/2) * 10)] :=
      hrc
    rcases List.mem_cons.mp hrc2 with heq | h2
    · subst heq
      show dotN (optimizeProg c2Samples 10 [] c2Recs).numVars _ c2xw ≤ _
      norm_num [dotN, optimizeProg, c2Samples, c2Recs, c2xw,
        Finset.sum_range_succ, List.getD]
    · rcases List.mem_cons.mp h2 with heq | habs
      · subst heq
        show dotN (optimizeProg c2Samples 10 [] c2Recs).numVars _ c2xw ≤ _
        norm_num [dotN, optimizeProg, c2Samples, c2Recs, c2xw,
          Finset.sum_range_succ, List.getD]
      · exact absurd habs (List.not_mem_nil _)

/-- Witness for C2 at a concrete instance with `total_bags = 10`. -/
theorem spec_c2_viol_zero_iff_in_band_w :
    totalViol c2Samples.length c2Recs.length c2xw = 0 ↔
      ∀ r ∈ c2Recs, r.target - r.tol ≤ avg r.values c2Samples.length c2xw ∧
        avg r.values c2Samples.length c2xw ≤ r.target + r.tol :=
  spec_c2_viol_zero_iff_in_band c2Samples 10 [] [("cp", 50)] c2Recs c2xw
    c2_softData (by norm_num)
    ⟨c2w_feasible, fun y hy => by
      rw [objVal_optimizeProg, objVal_optimizeProg]
      have h1 : totalViol c2Samples.length c2Recs.length c2xw = 0 := by
        norm_num [totalViol, c2xw, c2Samples, c2Recs, Finset.sum_range_succ]
      rw [h1]
      exact totalViol_nonneg_of_feasible hy⟩

/-- The zero vector, the solver's optimum at `total_bags = 0`. -/
def c2x0 : ℕ → ℚ := fun _ => 0

/-- Counterexample to C2 as stated: at `total_bags = 0` (with target
`cp = 50`) the zero vector is optimal with zero total violation, yet the
achieved average — defined as `0` by the `avg` guard — is far outside
`[49.5, 50.5]`, so the equivalence fails. -/
theorem spec_c2_counterexample :
    softData c2Samples [("cp", 50)] = some c2Recs ∧
    Optimal (optimizeProg c2Samples 0 [] c2Recs) c2x0 ∧
    ¬ ((totalViol c2Samples.length c2Recs.length c2x0 = 0) ↔
       ∀ r ∈ c2Recs, r.target - r.tol ≤ avg r.values c2Samples.length c2x0 ∧
         avg r.values c2Samples.length c2x0 ≤ r.target + r.tol) := by
  have h1 : totalViol c2Samples.length c2Recs.length c2x0 = 0 := by
    norm_num [totalViol, c2x0, c2Samples, c2Recs, Finset.sum_range_succ]
  have hfeas : Feasible (optimizeProg c2Samples 0 [] c2Recs) c2x0 := by
    refine ⟨?_, ?_, ?_⟩
    · intro i hi
      have hi3 : i < 3 := hi
      interval_cases i <;>
        norm_num [optimizeProg, withinBounds, bagLimits, c2Samples, c2Recs, c2x0]
    · intro rc hrc
      have hrc2 : rc ∈ [((fun i => if i < c2Samples.length then (1 : ℚ) else 0),
          (0 : ℚ))] := hrc
      rcases List.mem_cons.mp hrc2 with heq | habs
      · subst heq
        show dotN (optimizeProg c2Samples 0 [] c2Recs).numVars _ c2x0 = _
        norm_num [dotN, optimizeProg, c2Samples, c2Recs, c2x0,
          Finset.sum_range_succ]
      · exact absurd habs (List.not_mem_nil _)
    · intro rc hrc
      have hrc2 : rc ∈
          [((fun i => if i < c2Samples.length then ([(50 : ℚ)]).getD i 0
                      else if i = 1 then (-1 : ℚ) else 0), ((50 : ℚ) + 1/2) * 0),
           ((fun i => if i < c2Samples.length then -(([(50 : ℚ)]).getD i 0)
                      else if i = 2 then (-1 : ℚ) else 0), -((50 : ℚ) - 1/2) * 0)] :=
        hrc
      rcases List.mem_cons.mp hrc2 with heq | h2
      · subst heq
        show dotN (optimizeProg c2Samples 0 [] c2Recs).numVars _ c2x0 ≤ _
        norm_num [dotN, optimizeProg, c2Samples, c2Recs, c2x0,
          Finset.sum_range_succ, List.getD]
      · rcases List.mem_cons.mp h2 with heq | habs
        · subst heq
          show dotN (optimizeProg c2Samples 0 [] c2Recs).numVars _ c2x0 ≤ _
          norm_num [dotN, optimizeProg, c2Samples, c2Recs, c2x0,
            Finset.sum_range_succ, List.getD]
        · exact absurd habs (List.not_mem_nil _)
  refine ⟨c2_softData, ⟨hfeas, fun y hy => ?_⟩, ?_⟩
  · rw [objVal_optimizeProg, objVal_optimizeProg, h1]
    exact totalViol_nonneg_of_feasible hy
  · intro hiff
    have hband := hiff.mp h1
    have hr := hband _ (List.mem_cons_self _ _)
    norm_num [avg, c2Recs, c2Samples, c2x0, Finset.sum_range_succ] at hr

/-! Claim C3. -/

/-- C3: with non-empty targets, `optimize_mix` post-processes the solver
outcome so that the success flag is true exactly when the sum of the
violation-variable values is `0`; on solver infeasibility the result has
`success = false`, carries the solver's diagnostic message in `details`,
and contains no allocation (`bags_used` absent). -/
theorem spec_c3_success_flag (solver : Solver) (samples : List Sample)
    (T : ℚ) (fixed : List (String × ℚ)) (targets : List (String × Option ℚ))
    (recs : List NutrientRow)
    (hne : normTargets targets ≠ [])
    (hrecs : softData samples (normTargets targets) = some recs) :
    optimize_mix solver samples T fixed targets
      = some (optimizePost samples.length recs
          (solver (optimizeProg samples T fixed recs))) ∧
    (∀ x, solver (optimizeProg samples T fixed recs) = .ok x →
      ((optimizePost samples.length recs (.ok x)).success = true ↔
        totalViol samples.length recs.length x = 0)) ∧
    (∀ message, solver (optimizeProg samples T fixed recs) = .fail message →
      (optimizePost samples.length recs (.fail message)).success = false ∧
      (optimizePost samples.length recs (.fail message)).details = some message ∧
      (optimizePost samples.length recs (.fail message)).bags_used = none) := by
  refine ⟨?_, ?_, ?_⟩
  · simp only [optimize_mix]
    rw [if_neg (by simp [List.isEmpty_iff, hne]), hrecs]
    rfl
  · intro x _
    simp [optimizePost, decide_eq_true_eq]
  · intro message _
    exact ⟨rfl, rfl, rfl⟩

/-- A solver that always reports infeasibility, for the C3 witness. -/
def c3Solver : Solver := fun _ => LPOutcome.fail "infeasible"

/-- Witness for C3 at a concrete call with target `cp = 50` and an
infeasible solver outcome. -/
theorem spec_c3_success_flag_w :
    optimize_mix c3Solver c2Samples 10 [] [("target_cp", some 50)]
      = some (optimizePost c2Samples.length c2Recs
          (c3Solver (optimizeProg c2Samples 10 [] c2Recs))) ∧
    (∀ x, c3Solver (optimizeProg c2Samples 10 [] c2Recs) = .ok x →
      ((optimizePost c2Samples.length c2Recs (.ok x)).success = true ↔
        totalViol c2Samples.length c2Recs.length x = 0)) ∧
    (∀ message, c3Solver (optimizeProg c2Samples 10 [] c2Recs) = .fail message →
      (optimizePost c2Samples.length c2Recs (.fail message)).success = false ∧
      (optimizePost c2Samples.length c2Recs (.fail message)).details = some message ∧
      (optimizePost c2Samples.length c2Recs (.fail message)).bags_used = none) :=
  spec_c3_success_flag c3Solver c2Samples 10 [] [("target_cp", some 50)] c2Recs
    (by decide) (by rfl)

/-! Claim C4. -/

instance : Inhabited Sample := ⟨{ name := "" }⟩

/-- C4: (a) a fixed-allocation key resolves to exactly the samples whose
upper-cased name contains `"FISH MEAL"` (key `"F/M"`), `"HYPRO"` (key
`"HYPRO"`), or the upper-cased key itself as a substring; (b) when the key
matches at least one sample, every solution of either program has the
matched samples' combined usage pinned to
`min(requested, sum of clamped remaining capacities)`; (c) a key matching
no sample contributes no constraint (and, `fixedGroups` being total,
raises no error). -/
theorem spec_c4_fixed_matching (samples : List Sample) (T : ℚ)
    (fixed : List (String × ℚ)) (recs : List NutrientRow)
    (key : String) (val : ℚ) (x : ℕ → ℚ)
    (hkv : (key, val) ∈ fixed) :
    (∀ i, i ∈ matchingIndices samples key ↔
      ∃ h : i < samples.length,
        (if pyUpper key = "F/M"
          then strContains (pyUpper (samples.get ⟨i, h⟩).name) "FISH MEAL"
         else if pyUpper key = "HYPRO"
          then strContains (pyUpper (samples.get ⟨i, h⟩).name) "HYPRO"
         else strContains (pyUpper (samples.get ⟨i, h⟩).name) (pyUpper key)) = true) ∧
    (matchingIndices samples key ≠ [] →
      (Feasible (optimizeProg samples T fixed recs) x ∨
       Feasible (basicMixProg samples T fixed) x) →
      ∑ i in (matchingIndices samples key).toFinset, x i
        = min val (∑ i in (matchingIndices samples key).toFinset,
            max 0 ((samples.getD i default).remaining_quantity))) ∧
    (matchingIndices samples key = [] →
      ∀ rest, fixedGroups samples ((key, val) :: rest)
        = fixedGroups samples rest) := by
  refine ⟨?_, ?_, ?_⟩
  · intro i
    exact mem_matchingIndices
  · intro hne hf
    have hg := @mem_fixedGroups_of samples fixed key val hkv hne
    have hcap : (((matchingIndices samples key).map
        (fun i => (bagLimits samples).getD i 0)).sum)
        = ∑ i in (matchingIndices samples key).toFinset,
            max 0 ((samples.getD i default).remaining_quantity) := by
      rw [← List.sum_toFinset _ (matchingIndices_nodup samples key)]
      refine Finset.sum_congr rfl (fun i hi => ?_)
      have hilt : i < samples.length :=
        matchingIndices_lt (List.mem_toFinset.mp hi)
      rw [bagLimits_getD samples i hilt]
      congr 1
      simp [List.getD_eq_getElem?_getD, List.getElem?_eq_getElem, hilt,
        List.get_eq_getElem]
    rcases hf with hf | hf
    · have hpin : ∑ i in (matchingIndices samples key).toFinset, x i
          = min val (((matchingIndices samples key).map
              (fun i => (bagLimits samples).getD i 0)).sum) :=
        feasible_fixed_pin_optimize hf hg
      rw [hpin, hcap]
    · have hpin : ∑ i in (matchingIndices samples key).toFinset, x i
          = min val (((matchingIndices samples key).map
              (fun i => (bagLimits samples).getD i 0)).sum) :=
        feasible_fixed_pin_basic hf hg
      rw [hpin, hcap]
  · intro hne rest
    unfold fixedGroups
    simp [List.filterMap_cons, hne]

/-- Concrete samples for the C4 witness: one fish-meal sample matched by
the `"F/M"` key, one unrelated sample. -/
def c4Samples : List Sample :=
  [{ name := "Fish Meal (PRIME)", remaining_quantity := 4 },
   { name := "Soy Cake", remaining_quantity := 20 }]

/-- Concrete solution for the C4 witness: the fixed request of 7 bags of
fish meal is capped at the 4 remaining, the rest comes from the other
sample. -/
def c4x : ℕ → ℚ := fun i => if i = 0 then 4 else if i = 1 then 6 else 0

lemma c4_feasible : Feasible (basicMixProg c4Samples 10 [("F/M", 7)]) c4x := by
  refine ⟨?_, ?_, ?_⟩
  · intro i hi
    have hi2 : i < 2 := hi
    interval_cases i <;>
      norm_num [basicMixProg, withinBounds, bagLimits, c4Samples, c4x]
  · intro rc hrc
    have hM : matchingIndices c4Samples "F/M" = [0] := by decide
    have hrc2 : rc ∈ [((fun _ => (1 : ℚ)), (10 : ℚ)),
        ((fun i => if i ∈ matchingIndices c4Samples "F/M" then (1 : ℚ) else 0),
          min 7 (((matchingIndices c4Samples "F/M").map
            (fun i => (bagLimits c4Samples).getD i 0)).sum))] := hrc
    rcases List.mem_cons.mp hrc2 with heq | h2
    · subst heq
      show dotN (basicMixProg c4Samples 10 [("F/M", 7)]).numVars _ c4x = _
      norm_num [dotN, basicMixProg, c4Samples, c4x, Finset.sum_range_succ]
    · rcases List.mem_cons.mp h2 with heq | habs
      · subst heq
        show dotN (basicMixProg c4Samples 10 [("F/M", 7)]).numVars _ c4x = _
        rw [hM]
        norm_num [dotN, basicMixProg, c4Samples, c4x, bagLimits,
          Finset.sum_range_succ, List.mem_cons]
      · exact absurd habs (List.not_mem_nil _)
  · intro rc hrc
    simp [basicMixProg] at hrc

/-- Witness for C4: key `"F/M"` requesting 7 bags against a remaining
capacity of 4 pins the matched usage to `min 7 4`. -/
theorem spec_c4_fixed_matching_w :
    ∑ i in (matchingIndices c4Samples "F/M").toFinset, c4x i
      = min 7 (∑ i in (matchingIndices c4Samples "F/M").toFinset,
          max 0 ((c4Samples.getD i default).remaining_quantity)) :=
  (spec_c4_fixed_matching c4Samples 10 [("F/M", 7)] [] "F/M" 7 c4x
    (List.mem_cons_self _ _)).2.1 (by decide) (Or.inr c4_feasible)

/-! Claim C5. -/

/-- Concrete sample for the C5 counterexample: a fish-meal sample with
only 5 units left, against a fixed request of 10. -/
def c5Samples : List Sample := [{ name := "FISH MEAL A", remaining_quantity := 5 }]

/-- Counterexample to C5 as stated: `get_closest_feasible_targets` appends
the raw requested value 10 as the fixed-allocation right-hand side, while
`optimize_mix` caps it at the matching capacity `min 10 5 = 5`; the two
constraint sets differ. -/
theorem spec_c5_counterexample :
    fixedGroupsClosest c5Samples [("F/M", 10)] = [([0], 10)] ∧
    fixedGroups c5Samples [("F/M", 10)] = [([0], 5)] ∧
    fixedGroupsClosest c5Samples [("F/M", 10)]
      ≠ fixedGroups c5Samples [("F/M", 10)] := by
  have hM : matchingIndices c5Samples "F/M" = [0] := by decide
  have h1 : fixedGroupsClosest c5Samples [("F/M", 10)] = [([0], 10)] := by
    simp [fixedGroupsClosest, List.filterMap_cons, hM]
  have h2 : fixedGroups c5Samples [("F/M", 10)] = [([0], 5)] := by
    simp [fixedGroups, List.filterMap_cons, hM]
    norm_num [bagLimits, c5Samples]
  refine ⟨h1, h2, ?_⟩
  rw [h1, h2]
  simp

/-- C5 amended: `get_closest_feasible_targets` resolves fixed-allocation
keys to the same matched index sets as `optimize_mix`, skips zero-match
keys identically, and imposes the same capacity bounds on the sample
variables; but the emitted right-hand side is the raw requested quantity,
not capped at the matching samples' combined remaining capacity. -/
theorem spec_c5_closest_same_shape_uncapped_rhs (samples : List Sample)
    (fixed : List (String × ℚ)) (T : ℚ)
    (tv : List (String × ℚ × List ℚ)) (recs : List NutrientRow) :
    ((fixedGroupsClosest samples fixed).map Prod.fst
      = (fixedGroups samples fixed).map Prod.fst) ∧
    (∀ kv ∈ fixed, matchingIndices samples kv.1 ≠ [] →
      (matchingIndices samples kv.1, kv.2) ∈ fixedGroupsClosest samples fixed) ∧
    (∀ i, i < samples.length →
      (closestProg samples T tv fixed).bounds i
        = (optimizeProg samples T fixed recs).bounds i) := by
  refine ⟨?_, ?_, ?_⟩
  · induction fixed with
    | nil => rfl
    | cons kv rest ih =>
      unfold fixedGroupsClosest fixedGroups
      rw [List.filterMap_cons, List.filterMap_cons]
      dsimp only
      by_cases h : (matchingIndices samples kv.1).isEmpty
      · rw [if_pos h, if_pos h]
        exact ih
      · rw [if_neg h, if_neg h]
        dsimp only
        exact congrArg (List.cons (matchingIndices samples kv.1)) ih
  · intro kv hkv hne
    refine List.mem_filterMap.mpr ⟨kv, hkv, ?_⟩
    simp [List.isEmpty_iff, hne]
  · intro i hi
    simp [closestProg, optimizeProg, hi]

/-- Witness for C5 (amended) at the counterexample input: the uncapped
pair is among the closest-feasible constraints. -/
theorem spec_c5_closest_same_shape_uncapped_rhs_w :
    (matchingIndices c5Samples "F/M", (10 : ℚ))
      ∈ fixedGroupsClosest c5Samples [("F/M", 10)] :=
  (spec_c5_closest_same_shape_uncapped_rhs c5Samples [("F/M", 10)] 0 [] []).2.1
    ("F/M", 10) (List.mem_cons_self _ _) (by decide)

/-! Claim C6. -/

lemma range_zero_raises {solver : Solver} {samples : List Sample}
    {nutrient : String} {values : List ℚ} {xmax xmin : ℕ → ℚ}
    (hv : rangeValues samples nutrient = some values)
    (hmax : solver (rangeProgMax samples values 0) = .ok xmax)
    (hmin : solver (rangeProgMin samples values 0) = .ok xmin) :
    get_achievable_range solver samples nutrient 0 = none := by
  simp only [get_achievable_range, hv, Option.some_bind]
  rw [hmax, hmin]
  simp

/-- A solver answering every program with the zero vector (which is what
HiGHS returns at `total_bags = 0`). -/
def c6Solver : Solver := fun _ => LPOutcome.ok (fun _ => 0)

lemma mapM_option_get {α β : Type} (f : α → Option β) :
    ∀ {l : List α} {res : List β}, l.mapM f = some res →
      ∀ i, ∀ h : i < l.length, ∃ h2 : i < res.length,
        f (l.get ⟨i, h⟩) = some (res.get ⟨i, h2⟩) := by
  intro l
  induction l with
  | nil => intro res _ i h; cases h
  | cons a l2 ih =>
    intro res hm i h
    rw [List.mapM_cons] at hm
    cases hfa : f a with
    | none => rw [hfa] at hm; cases hm
    | some b =>
      rw [hfa] at hm
      cases hml : l2.mapM f with
      | none => rw [hml] at hm; cases hm
      | some bs =>
        rw [hml] at hm
        have hres : res = b :: bs := by
          simpa using hm.symm
        subst hres
        cases i with
        | zero => exact ⟨Nat.succ_pos _, hfa⟩
        | succ i2 =>
          obtain ⟨h2, hf2⟩ := ih hml i2 (Nat.lt_of_succ_lt_succ h)
          exact ⟨Nat.succ_lt_succ h2, hf2⟩

/-- C7 (amended): `get_achievable_range` maps a missing (`None`) nutrient
value to `0` while keeping every sample in the variable set (one variable
per sample with the usual bounds); but `optimize_mix` raises (the
soft-constraint data build fails) whenever any sample has a missing value
for a targeted nutrient. -/
theorem spec_c7_missing_nutrient_values (samples : List Sample)
    (nutrient nut : String) (t T : ℚ) (values : List ℚ)
    (vs : List (Option ℚ)) (targets : List (String × ℚ)) (i : ℕ)
    (hv : rangeValues samples nutrient = some values) :
    (∀ h : i < samples.length,
      getAttrField (samples.get ⟨i, h⟩) nutrient = some none →
      ∃ h2 : i < values.length, values.get ⟨i, h2⟩ = 0) ∧
    (rangeProgMin samples values T).numVars = samples.length ∧
    (rangeProgMax samples values T).numVars = samples.length ∧
    ((nut, t) ∈ targets → values_dict samples nut = some vs → none ∈ vs →
      softData samples targets = none) := by
  refine ⟨?_, rfl, rfl, ?_⟩
  · intro h hmiss
    have hv2 : samples.mapM
        (fun s => (getAttrField s nutrient).map (fun o => o.getD 0))
        = some values := hv
    obtain ⟨h2, hf⟩ := mapM_option_get
      (fun s => (getAttrField s nutrient).map (fun o => o.getD 0)) hv2 i h
    rw [hmiss] at hf
    exact ⟨h2, by simpa using hf.symm⟩
  · intro hmem hvd hns
    exact softData_none_of_missing hmem hvd hns

/-- One sample whose crude-protein value was never measured. -/
def c7Samples : List Sample := [{ name := "A", cp := none, remaining_quantity := 10 }]

/-- Witness for C7 (amended): the unmeasured value extracts as `0` on the
range path, and the soft-constraint build of `optimize_mix` fails. -/
theorem spec_c7_missing_nutrient_values_w :
    (∃ h2 : 0 < ([(0 : ℚ)]).length, ([(0 : ℚ)]).get ⟨0, h2⟩ = 0) ∧
    softData c7Samples [("cp", 50)] = none :=
  ⟨(spec_c7_missing_nutrient_values c7Samples "cp" "cp" 50 10 [0] [none]
      [("cp", 50)] 0 rfl).1 (by decide) rfl,
   (spec_c7_missing_nutrient_values c7Samples "cp" "cp" 50 10 [0] [none]
      [("cp", 50)] 0 rfl).2.2.2 (List.mem_cons_self _ _) rfl
      (List.mem_cons_self _ _)⟩

/-- Counterexample to C7 as stated: a targeted nutrient with a missing
per-sample value makes `optimize_mix` raise (model: the call returns
`none`) instead of contributing `0` to the constraint. -/
theorem spec_c7_counterexample :
    optimize_mix c6Solver c7Samples 10 [] [("target_cp", some 50)] = none := rfl

/-! Claim C8. -/

/-- C8 (amended): with an empty (post-normalization) targets mapping,
`optimize_mix` delegates to `basic_mix`; on solver success the result has
`total_violation = 0`, an empty achieved-values mapping and
`success = true`; on solver failure `success = false` with the solver's
message, but the total-violation and achieved-values fields are then
absent from the result rather than `0` and empty.  In both branches the
success flag reflects solver feasibility only. -/
theorem spec_c8_empty_targets (solver : Solver) (samples : List Sample)
    (T : ℚ) (fixed : List (String × ℚ)) (targets0 : List (String × Option ℚ))
    (hempty : normTargets targets0 = []) :
    optimize_mix solver samples T fixed targets0
      = some (basic_mix solver samples T fixed) ∧
    (∀ x, solver (basicMixProg samples T fixed) = .ok x →
      (basic_mix solver samples T fixed).total_violation = some 0 ∧
      (basic_mix solver samples T fixed).final_values = some [] ∧
      (basic_mix solver samples T fixed).success = true) ∧
    (∀ msg, solver (basicMixProg samples T fixed) = .fail msg →
      (basic_mix solver samples T fixed).success = false ∧
      (basic_mix solver samples T fixed).total_violation = none ∧
      (basic_mix solver samples T fixed).final_values = none ∧
      (basic_mix solver samples T fixed).reason = some msg) := by
  refine ⟨by simp [optimize_mix, hempty], ?_, ?_⟩
  · intro x hx
    simp [basic_mix, hx]
  · intro msg hm
    simp [basic_mix, hm]

/-- Witness for C8 (amended) with a feasible solver outcome. -/
theorem spec_c8_empty_targets_w :
    (basic_mix c6Solver c1Samples 10 []).total_violation = some 0 ∧
    (basic_mix c6Solver c1Samples 10 []).final_values = some [] ∧
    (basic_mix c6Solver c1Samples 10 []).success = true :=
  (spec_c8_empty_targets c6Solver c1Samples 10 [] [] rfl).2.1 (fun _ => 0) rfl

/-- Counterexample to C8 as stated: with empty targets and an infeasible
solve, the returned result omits `total_violation` (and the achieved
values) entirely — it is not `0`. -/
theorem spec_c8_counterexample :
    optimize_mix c3Solver c1Samples 20 [] []
      = some (basic_mix c3Solver c1Samples 20 []) ∧
    (basic_mix c3Solver c1Samples 20 []).success = false ∧
    (basic_mix c3Solver c1Samples 20 []).total_violation = none ∧
    (basic_mix c3Solver c1Samples 20 []).final_values = none ∧
    (basic_mix c3Solver c1Samples 20 []).total_violation ≠ some 0 := by
  refine ⟨rfl, rfl, rfl, rfl, ?_⟩
  intro h
  exact Option.noConfusion ((rfl : (basic_mix c3Solver c1Samples 20 []).total_violation = none) ▸ h)

/-! Claim C9. -/

lemma round2_zero : round2 0 = 0 := by norm_num [round2]

lemma round2_mono {a b : ℚ} (h : a ≤ b) : round2 a ≤ round2 b := by
  unfold round2
  have hr : round (a * 100) ≤ round (b * 100) := by
    rw [round_eq, round_eq]
    exact Int.floor_mono (by linarith)
  have h2 : ((round (a * 100) : ℤ) : ℚ) ≤ ((round (b * 100) : ℤ) : ℚ) :=
    Int.cast_le.mpr hr
  linarith

lemma range_ok_eval {solver : Solver} {samples : List Sample}
    {nutrient : String} {values : List ℚ} {xmax xmin : ℕ → ℚ} {T : ℚ}
    (hv : rangeValues samples nutrient = some values)
    (hmax : solver (rangeProgMax samples values T) = .ok xmax)
    (hmin : solver (rangeProgMin samples values T) = .ok xmin)
    (hT : T ≠ 0) :
    get_achievable_range solver samples nutrient T
      = some (some
          (round2 (max 0 (objVal (rangeProgMin samples values T) xmin / T)),
           round2 (max 0 (-(objVal (rangeProgMax samples values T) xmax) / T)))) := by
  simp only [get_achievable_range, hv, Option.some_bind]
  rw [hmax, hmin]
  simp [hT]

lemma feasible_range_min_sum {samples : List Sample} {values : List ℚ}
    {T : ℚ} {x : ℕ → ℚ}
    (hf : Feasible (rangeProgMin samples values T) x) :
    ∑ i in Finset.range samples.length, x i = T := by
  have h := hf.2.1 ((fun _ => (1 : ℚ)), T) (List.mem_cons_self _ _)
  rw [show (rangeProgMin samples values T).numVars = samples.length from rfl,
    dotN_const_one] at h
  exact h

lemma feasible_range_min_nonneg {samples : List Sample} {values : List ℚ}
    {T : ℚ} {x : ℕ → ℚ}
    (hf : Feasible (rangeProgMin samples values T) x)
    (i : ℕ) (hi : i < samples.length) : 0 ≤ x i :=
  ((withinBounds_some _ _).mp (hf.1 i hi)).1

lemma objVal_rangeProgMax (samples : List Sample) (values : List ℚ)
    (T : ℚ) (y : ℕ → ℚ) :
    objVal (rangeProgMax samples values T) y
      = -(dotN samples.length (fun i => values.getD i 0) y) := by
  unfold objVal dotN
  rw [← Finset.sum_neg_distrib]
  refine Finset.sum_congr rfl (fun i _ => ?_)
  show -(values.getD i 0) * y i = -(values.getD i 0 * y i)
  ring

/-- C9: `get_achievable_range` reports infeasible (`None`) whenever either
sub-solve fails; a `(min, max)` pair is returned only when both
sub-solves succeeded; and every returned pair has both bounds clamped to
at least `0` and satisfies `min ≤ max`.  (At `total_bags = 0` the
function raises instead of returning a pair, so the pair properties are
about the non-degenerate calls that do return one.) -/
theorem spec_c9_achievable_range (solver : Solver) (samples : List Sample)
    (nutrient : String) (T : ℚ) (values : List ℚ) (xmax xmin : ℕ → ℚ)
    (hv : rangeValues samples nutrient = some values) :
    (∀ msg, solver (rangeProgMax samples values T) = .fail msg →
      get_achievable_range solver samples nutrient T = some none) ∧
    (∀ msg, solver (rangeProgMin samples values T) = .fail msg →
      get_achievable_range solver samples nutrient T = some none) ∧
    (∀ lo hi, get_achievable_range solver samples nutrient T
        = some (some (lo, hi)) →
      (∃ xm, solver (rangeProgMax samples values T) = .ok xm) ∧
      (∃ xm, solver (rangeProgMin samples values T) = .ok xm)) ∧
    (solver (rangeProgMax samples values T) = .ok xmax →
     solver (rangeProgMin samples values T) = .ok xmin →
     Optimal (rangeProgMax samples values T) xmax →
     Optimal (rangeProgMin samples values T) xmin →
     ∀ lo hi, get_achievable_range solver samples nutrient T
        = some (some (lo, hi)) →
       0 ≤ lo ∧ 0 ≤ hi ∧ lo ≤ hi) := by
  refine ⟨?_, ?_, ?_, ?_⟩
  · intro msg hm
    simp only [get_achievable_range, hv, Option.some_bind]
    rw [hm]
  · intro msg hm
    simp only [get_achievable_range, hv, Option.some_bind]
    rw [hm]
    cases solver (rangeProgMax samples values T) <;> rfl
  · intro lo hi heq
    cases hmo : solver (rangeProgMax samples values T) with
    | fail msg =>
      have hres : get_achievable_range solver samples nutrient T = some none := by
        simp only [get_achievable_range, hv, Option.some_bind]
        rw [hmo]
      rw [hres] at heq
      simp at heq
    | ok xm =>
      cases hmi : solver (rangeProgMin samples values T) with
      | fail msg =>
        have hres : get_achievable_range solver samples nutrient T = some none := by
          simp only [get_achievable_range, hv, Option.some_bind]
          rw [hmo, hmi]
        rw [hres] at heq
        simp at heq
      | ok xmi => exact ⟨⟨xm, rfl⟩, ⟨xmi, rfl⟩⟩
  · intro hmax hmin hoptmax hoptmin lo hi heq
    by_cases hT : T = 0
    · subst hT
      rw [range_zero_raises hv hmax hmin] at heq
      simp at heq
    · rw [range_ok_eval hv hmax hmin hT] at heq
      simp only [Option.some.injEq, Prod.mk.injEq] at heq
      obtain ⟨hlo, hhi⟩ := heq
      subst hlo
      subst hhi
      refine ⟨?_, ?_, ?_⟩
      · calc (0 : ℚ) = round2 0 := round2_zero.symm
          _ ≤ _ := round2_mono (le_max_left 0 _)
      · calc (0 : ℚ) = round2 0 := round2_zero.symm
          _ ≤ _ := round2_mono (le_max_left 0 _)
      · apply round2_mono
        have hTpos : 0 < T := by
          have hsum := feasible_range_min_sum hoptmin.1
          have hge : 0 ≤ T := by
            rw [← hsum]
            exact Finset.sum_nonneg (fun i hi =>
              feasible_range_min_nonneg hoptmin.1 i (Finset.mem_range.mp hi))
          exact lt_of_le_of_ne hge (Ne.symm hT)
        have hxmaxmin : Feasible (rangeProgMin samples values T) xmax :=
          hoptmax.1
        have hdle : objVal (rangeProgMin samples values T) xmin
            ≤ dotN samples.length (fun i => values.getD i 0) xmax :=
          hoptmin.2 xmax hxmaxmin
        have hmaxeq : -(objVal (rangeProgMax samples values T) xmax)
            = dotN samples.length (fun i => values.getD i 0) xmax := by
          rw [objVal_rangeProgMax]; ring
        rw [hmaxeq]
        apply max_le_max (le_refl 0)
        exact (div_le_div_iff_of_pos_right hTpos).mpr hdle

lemma feasible_single_forced {lp : LinProg} {y : ℕ → ℚ} {T : ℚ}
    (hn : lp.numVars = 1) (hrow : ((fun _ => (1 : ℚ)), T) ∈ lp.eqRows)
    (hy : Feasible lp y) : y 0 = T := by
  have h := hy.2.1 _ hrow
  rw [hn, dotN_const_one, Finset.sum_range_one] at h
  exact h

lemma objVal_single {lp : LinProg} (hn : lp.numVars = 1) (y : ℕ → ℚ) :
    objVal lp y = lp.objective 0 * y 0 := by
  unfold objVal dotN
  rw [hn, Finset.sum_range_one]

lemma optimal_single {lp : LinProg} {x : ℕ → ℚ} {T : ℚ}
    (hn : lp.numVars = 1) (hrow : ((fun _ => (1 : ℚ)), T) ∈ lp.eqRows)
    (hx : Feasible lp x) : Optimal lp x := by
  refine ⟨hx, fun y hy => ?_⟩
  rw [objVal_single hn, objVal_single hn,
    feasible_single_forced hn hrow hx, feasible_single_forced hn hrow hy]

/-- A solver answering every program with the forced single-sample
solution of the C9 witness instance. -/
def c9Solver : Solver := fun _ => LPOutcome.ok c2xw

lemma c9_feasible_min : Feasible (rangeProgMin c2Samples [50] 10) c2xw := by
  refine ⟨?_, ?_, ?_⟩
  · intro i hi
    have hi1 : i < 1 := hi
    interval_cases i
    norm_num [rangeProgMin, withinBounds, bagLimits, c2Samples, c2xw]
  · intro rc hrc
    have hrc2 : rc ∈ [((fun _ => (1 : ℚ)), (10 : ℚ))] := hrc
    rcases List.mem_cons.mp hrc2 with heq | habs
    · subst heq
      show dotN (rangeProgMin c2Samples [50] 10).numVars _ c2xw = _
      norm_num [dotN, rangeProgMin, c2Samples, c2xw, Finset.sum_range_succ]
    · exact absurd habs (List.not_mem_nil _)
  · intro rc hrc
    simp [rangeProgMin] at hrc

/-- Witness for C9 at a concrete one-sample instance where the single
feasible point is optimal for both sub-solves and a pair is returned. -/
theorem spec_c9_achievable_range_w :
    ∃ lo hi,
      get_achievable_range c9Solver c2Samples "cp" 10 = some (some (lo, hi)) ∧
      0 ≤ lo ∧ 0 ≤ hi ∧ lo ≤ hi := by
  have heval := @range_ok_eval c9Solver c2Samples "cp" [50] c2xw c2xw 10
    rfl rfl rfl (by norm_num)
  exact ⟨_, _, heval,
    (spec_c9_achievable_range c9Solver c2Samples "cp" 10 [50] c2xw c2xw rfl).2.2.2
      rfl rfl
      (optimal_single rfl (List.mem_cons_self _ _) c9_feasible_min)
      (optimal_single rfl (List.mem_cons_self _ _) c9_feasible_min)
      _ _ heval⟩

/-! Claim C10. -/

/-- C10 (amended): the tolerance lookup does default to `0.5` for keys
outside the table, but that default is unreachable in a completed solve:
a targeted nutrient outside the seven value-table keys (which coincide
with the tolerance-table keys) raises a `KeyError` when its per-sample
values are looked up, so `optimize_mix` errors out on the unknown
nutrient instead of silently optimizing with the default tolerance. -/
theorem spec_c10_unknown_nutrient (solver : Solver) (samples : List Sample)
    (T : ℚ) (fixed : List (String × ℚ))
    (targets0 : List (String × Option ℚ)) (nut : String) (t : ℚ)
    (hun : nut ∉ ["moisture", "cp", "fat", "tvbn", "ash", "ffa", "fiber"])
    (hmem : (nut, t) ∈ normTargets targets0) :
    tolGet nut = 1/2 ∧
    values_dict samples nut = none ∧
    softData samples (normTargets targets0) = none ∧
    optimize_mix solver samples T fixed targets0 = none := by
  simp only [List.mem_cons, List.not_mem_nil, or_false] at hun
  push_neg at hun
  obtain ⟨h1, h2, h3, h4, h5, h6, h7⟩ := hun
  have hvd : values_dict samples nut = none := by
    simp [values_dict, h1, h2, h3, h4, h5, h6, h7]
  have htol : tolGet nut = 1/2 := by
    have hl : FOOD_TOLERANCES.lookup nut = none := by
      have e1 : (nut == "cp") = false := beq_eq_false_iff_ne.mpr h2
      have e2 : (nut == "fat") = false := beq_eq_false_iff_ne.mpr h3
      have e3 : (nut == "ash") = false := beq_eq_false_iff_ne.mpr h5
      have e4 : (nut == "ffa") = false := beq_eq_false_iff_ne.mpr h6
      have e5 : (nut == "moisture") = false := beq_eq_false_iff_ne.mpr h1
      have e6 : (nut == "fiber") = false := beq_eq_false_iff_ne.mpr h7
      have e7 : (nut == "tvbn") = false := beq_eq_false_iff_ne.mpr h4
      simp [FOOD_TOLERANCES, List.lookup, e1, e2, e3, e4, e5, e6, e7]
    simp [tolGet, hl]
  have hsd : softData samples (normTargets targets0) = none :=
    softData_none_of_values_none hmem hvd
  refine ⟨htol, hvd, hsd, ?_⟩
  simp only [optimize_mix]
  rw [if_neg (by simp [List.isEmpty_iff, List.ne_nil_of_mem hmem]), hsd]
  rfl

/-- Witness for C10 (amended) at the unknown nutrient key `"xyz"`. -/
theorem spec_c10_unknown_nutrient_w :
    tolGet "xyz" = 1/2 ∧
    values_dict c2Samples "xyz" = none ∧
    softData c2Samples (normTargets [("target_xyz", some 5)]) = none ∧
    optimize_mix c6Solver c2Samples 10 [] [("target_xyz", some 5)] = none :=
  spec_c10_unknown_nutrient c6Solver c2Samples 10 [] [("target_xyz", some 5)]
    "xyz" 5 (by decide) (by decide)

/-- Counterexample to C10 as stated: targeting the unknown nutrient
`"xyz"` makes `optimize_mix` raise (model: `none`) — no soft constraint
with the default tolerance `0.5` is ever emitted for it. -/
theorem spec_c10_counterexample :
    optimize_mix c6Solver c2Samples 10 [] [("target_xyz", some 5)] = none ∧
    softData c2Samples [("xyz", 5)] = none := ⟨rfl, rfl⟩

end MixEngine
